import Mathlib

/-!
Verification development for the `sync_network` oscillator-network engine
(`src/core/ccore/ccore/sync_network.h`).  The repository ships only the class
declaration; every function body below is modelled from the specification
document, faithful to its words, and the theorems settle the behavioural
claims against those models.
-/

open Real

namespace Sync

/-- Modelled from the source header: `sync_dynamic` record, one oscillator's
phase at one recorded instant. -/
structure sync_dynamic where
  time : ℝ
  phase : ℝ

/-- Modelled from the spec: `phase_normalization(teta)` maps an arbitrary real
phase into the canonical range `[0, 2π)` by periodic wrap (the header only
declares the static utility; the body is missing from src). -/
noncomputable def phase_normalization (teta : ℝ) : ℝ :=
  teta - 2 * π * ⌊teta / (2 * π)⌋

lemma two_pi_pos : (0 : ℝ) < 2 * π := by positivity

lemma phase_normalization_eq_fract (teta : ℝ) :
    phase_normalization teta = 2 * π * Int.fract (teta / (2 * π)) := by
  have h : 2 * π * (teta / (2 * π)) = teta := by
    field_simp
  rw [phase_normalization, Int.fract, mul_sub, h]

lemma phase_normalization_nonneg (teta : ℝ) : 0 ≤ phase_normalization teta := by
  rw [phase_normalization_eq_fract]
  exact mul_nonneg (le_of_lt two_pi_pos) (Int.fract_nonneg _)

lemma phase_normalization_lt (teta : ℝ) : phase_normalization teta < 2 * π := by
  rw [phase_normalization_eq_fract]
  calc 2 * π * Int.fract (teta / (2 * π)) < 2 * π * 1 :=
        (mul_lt_mul_left two_pi_pos).mpr (Int.fract_lt_one _)
    _ = 2 * π := mul_one _

lemma phase_normalization_of_mem (teta : ℝ) (h0 : 0 ≤ teta) (h1 : teta < 2 * π) :
    phase_normalization teta = teta := by
  have hfloor : ⌊teta / (2 * π)⌋ = 0 := by
    rw [Int.floor_eq_zero_iff]
    constructor
    · exact div_nonneg h0 (le_of_lt two_pi_pos)
    · rw [div_lt_one two_pi_pos]
      simpa using h1
  simp [phase_normalization, hfloor]

lemma phase_normalization_idem (teta : ℝ) :
    phase_normalization (phase_normalization teta) = phase_normalization teta :=
  phase_normalization_of_mem _ (phase_normalization_nonneg teta)
    (phase_normalization_lt teta)

lemma phase_normalization_periodic (teta : ℝ) (k : ℤ) :
    phase_normalization (teta + 2 * π * k) = phase_normalization teta := by
  rw [phase_normalization_eq_fract, phase_normalization_eq_fract]
  have h : (teta + 2 * π * k) / (2 * π) = teta / (2 * π) + k := by
    field_simp
    ring
  rw [h, Int.fract_add_int]

/-- C9: `phase_normalization(teta)` always lands in `[0, 2π)`; it is
idempotent, leaves values already in `[0, 2π)` unchanged, and is `2π`-periodic:
`phase_normalization(teta + 2π·k) = phase_normalization(teta)` for every
integer `k`. -/
theorem phase_normalization_range_idem_periodic (teta : ℝ) :
    (0 ≤ phase_normalization teta ∧ phase_normalization teta < 2 * π) ∧
    phase_normalization (phase_normalization teta) = phase_normalization teta ∧
    (0 ≤ teta → teta < 2 * π → phase_normalization teta = teta) ∧
    (∀ k : ℤ, phase_normalization (teta + 2 * π * k) = phase_normalization teta) :=
  ⟨⟨phase_normalization_nonneg teta, phase_normalization_lt teta⟩,
    phase_normalization_idem teta,
    fun h0 h1 => phase_normalization_of_mem teta h0 h1,
    fun k => phase_normalization_periodic teta k⟩

/-- Witness for C9 at the concrete phase `1`. -/
theorem phase_normalization_range_idem_periodic_witness :
    phase_normalization 1 = 1 := by
  have h := phase_normalization_range_idem_periodic 1
  exact h.2.2.1 (by norm_num) (by nlinarith [Real.pi_gt_three])

/-- Modelled from the spec: `sync_order()` is the global Kuramoto order
parameter `r = |(1/N) Σ_j e^{i·θ_j}|` (the header only declares the method;
the body is missing from src). -/
noncomputable def sync_order {N : ℕ} (p : Fin N → ℝ) : ℝ :=
  Complex.abs ((1 / (N : ℂ)) * ∑ j : Fin N, Complex.exp (p j * Complex.I))

lemma sync_order_eq_div {N : ℕ} (p : Fin N → ℝ) :
    sync_order p = Complex.abs (∑ j : Fin N, Complex.exp (p j * Complex.I)) / N := by
  unfold sync_order
  rw [map_mul, map_div₀, map_one, Complex.abs_natCast]
  ring

lemma abs_sum_exp_le {N : ℕ} (p : Fin N → ℝ) :
    Complex.abs (∑ j : Fin N, Complex.exp (p j * Complex.I)) ≤ N := by
  calc Complex.abs (∑ j : Fin N, Complex.exp (p j * Complex.I))
      ≤ ∑ j : Fin N, Complex.abs (Complex.exp (p j * Complex.I)) :=
        Complex.abs.sum_le _ _
    _ = ∑ _j : Fin N, (1 : ℝ) := by
        simp [Complex.abs_exp_ofReal_mul_I]
    _ = N := by simp

lemma complex_eq_one_of_re_abs {w : ℂ} (hre : w.re = 1) (habs : Complex.abs w = 1) :
    w = 1 := by
  have hsq : Complex.normSq w = 1 := by
    rw [Complex.normSq_eq_abs, habs, one_pow]
  have him : w.im = 0 := by
    have h2 : w.re * w.re + w.im * w.im = 1 := by
      rw [← Complex.normSq_apply, hsq]
    nlinarith
  exact Complex.ext (by simpa using hre) (by simpa using him)

lemma all_exp_eq_of_abs_sum {N : ℕ} (hN : 0 < N) (p : Fin N → ℝ)
    (h : Complex.abs (∑ j : Fin N, Complex.exp (p j * Complex.I)) = N) :
    ∀ j k, Complex.exp (p j * Complex.I) = Complex.exp (p k * Complex.I) := by
  set S := ∑ j : Fin N, Complex.exp (p j * Complex.I) with hS
  have hNR : (N : ℝ) ≠ 0 := Nat.cast_ne_zero.mpr hN.ne'
  have hNC : (N : ℂ) ≠ 0 := Nat.cast_ne_zero.mpr hN.ne'
  set u := S / (N : ℂ) with hu
  have habs_u : Complex.abs u = 1 := by
    rw [hu, map_div₀, h, Complex.abs_natCast, div_self hNR]
  have hSu : S = (N : ℂ) * u := by
    rw [hu]
    field_simp
  have hcu : (starRingEnd ℂ) u * u = 1 := by
    rw [mul_comm, Complex.mul_conj]
    norm_cast
    rw [Complex.normSq_eq_abs, habs_u, one_pow]
  have hconjS : (starRingEnd ℂ) u * S = (N : ℂ) := by
    calc (starRingEnd ℂ) u * S = (N : ℂ) * ((starRingEnd ℂ) u * u) := by
          rw [hSu]; ring
      _ = (N : ℂ) := by rw [hcu, mul_one]
  have hsum_re : ∑ j : Fin N, ((starRingEnd ℂ) u * Complex.exp (p j * Complex.I)).re
      = (N : ℝ) := by
    have hmul : ∑ j : Fin N, (starRingEnd ℂ) u * Complex.exp (p j * Complex.I)
        = (starRingEnd ℂ) u * S := by
      rw [hS, Finset.mul_sum]
    calc ∑ j : Fin N, ((starRingEnd ℂ) u * Complex.exp (p j * Complex.I)).re
        = (∑ j : Fin N, (starRingEnd ℂ) u * Complex.exp (p j * Complex.I)).re := by
          rw [Complex.re_sum]
      _ = ((N : ℂ)).re := by rw [hmul, hconjS]
      _ = (N : ℝ) := by simp
  have hterm_le : ∀ j ∈ Finset.univ,
      ((starRingEnd ℂ) u * Complex.exp (p j * Complex.I)).re ≤ (1 : ℝ) := by
    intro j _
    calc ((starRingEnd ℂ) u * Complex.exp (p j * Complex.I)).re
        ≤ Complex.abs ((starRingEnd ℂ) u * Complex.exp (p j * Complex.I)) :=
          Complex.re_le_abs _
      _ = Complex.abs ((starRingEnd ℂ) u) * Complex.abs (Complex.exp (p j * Complex.I)) :=
          map_mul _ _ _
      _ = 1 := by
          rw [Complex.abs_conj, habs_u, Complex.abs_exp_ofReal_mul_I, one_mul]
  have hall : ∀ j ∈ (Finset.univ : Finset (Fin N)),
      ((starRingEnd ℂ) u * Complex.exp (p j * Complex.I)).re = (1 : ℝ) := by
    rw [← Finset.sum_eq_sum_iff_of_le hterm_le]
    rw [hsum_re]
    simp
  have hz : ∀ j, Complex.exp (p j * Complex.I) = u := by
    intro j
    have h1 : (starRingEnd ℂ) u * Complex.exp (p j * Complex.I) = 1 := by
      refine complex_eq_one_of_re_abs (hall j (Finset.mem_univ j)) ?_
      rw [map_mul, Complex.abs_conj, habs_u, Complex.abs_exp_ofReal_mul_I, one_mul]
    have h2 : u * ((starRingEnd ℂ) u * Complex.exp (p j * Complex.I)) = u := by
      rw [h1, mul_one]
    have h3 : (u * (starRingEnd ℂ) u) * Complex.exp (p j * Complex.I) = u := by
      rw [mul_assoc]; exact h2
    have h4 : u * (starRingEnd ℂ) u = 1 := by
      rw [mul_comm]; exact hcu
    rw [h4, one_mul] at h3
    exact h3
  intro j k
  rw [hz j, hz k]

/-- C4: `sync_order()` lies in `[0, 1]` for every phase vector over a nonempty
ensemble, and equals `1` exactly when all phases are identical modulo `2π`. -/
theorem sync_order_range_and_perfect_sync {N : ℕ} (hN : 0 < N) (p : Fin N → ℝ) :
    (0 ≤ sync_order p ∧ sync_order p ≤ 1) ∧
    (sync_order p = 1 ↔ ∀ j k, ∃ m : ℤ, p j = p k + 2 * π * m) := by
  have hNR : (0 : ℝ) < (N : ℝ) := Nat.cast_pos.mpr hN
  have hone : sync_order p = 1 ↔
      Complex.abs (∑ j : Fin N, Complex.exp (p j * Complex.I)) = N := by
    rw [sync_order_eq_div, div_eq_one_iff_eq hNR.ne']
  refine ⟨⟨Complex.abs.nonneg _, ?_⟩, ?_⟩
  · rw [sync_order_eq_div, div_le_one hNR]
    exact abs_sum_exp_le p
  · rw [hone]
    constructor
    · intro habs j k
      have hjk := all_exp_eq_of_abs_sum hN p habs j k
      obtain ⟨n, hn⟩ := Complex.exp_eq_exp_iff_exists_int.mp hjk
      refine ⟨n, ?_⟩
      have hmul : ((p j : ℂ)) * Complex.I = ((p k + 2 * π * n : ℝ) : ℂ) * Complex.I := by
        push_cast
        rw [hn]
        ring
      have hre := mul_right_cancel₀ Complex.I_ne_zero hmul
      exact_mod_cast hre
    · intro hall
      obtain ⟨j0⟩ : Nonempty (Fin N) := ⟨⟨0, hN⟩⟩
      have hz : ∀ j : Fin N, Complex.exp (p j * Complex.I)
          = Complex.exp (p j0 * Complex.I) := by
        intro j
        obtain ⟨m, hm⟩ := hall j j0
        rw [hm]
        push_cast
        rw [add_mul, Complex.exp_add]
        have harg : ((2 : ℂ) * π * m) * Complex.I = m * (2 * π * Complex.I) := by
          ring
        rw [harg, Complex.exp_int_mul_two_pi_mul_I, mul_one]
      have hsum : ∑ j : Fin N, Complex.exp (p j * Complex.I)
          = (N : ℂ) * Complex.exp (p j0 * Complex.I) := by
        rw [Finset.sum_congr rfl (fun j _ => hz j)]
        rw [Finset.sum_const, Finset.card_univ, Fintype.card_fin, nsmul_eq_mul]
      rw [hsum, map_mul, Complex.abs_natCast, Complex.abs_exp_ofReal_mul_I, mul_one]

/-- Witness for C4 at the one-oscillator ensemble with phase `0`. -/
theorem sync_order_range_and_perfect_sync_witness :
    (0 ≤ sync_order (fun _ : Fin 1 => (0 : ℝ)) ∧
      sync_order (fun _ : Fin 1 => (0 : ℝ)) ≤ 1) ∧
    (sync_order (fun _ : Fin 1 => (0 : ℝ)) = 1 ↔
      ∀ j k : Fin 1, ∃ m : ℤ,
        (fun _ : Fin 1 => (0 : ℝ)) j = (fun _ : Fin 1 => (0 : ℝ)) k + 2 * π * m) :=
  sync_order_range_and_perfect_sync (by norm_num) (fun _ : Fin 1 => (0 : ℝ))

/-- Modelled from the spec (§6): the solver-type enumeration selecting one of
the supported numeric integration schemes; `UNSUPPORTED` stands for any
selector value outside the supported set (the enumeration lives in the
excluded `interface_network.h`). -/
inductive solve_type where
  | FAST : solve_type
  | RK4 : solve_type
  | RKF45 : solve_type
  | UNSUPPORTED : solve_type
deriving DecidableEq

/-- Modelled from the spec (§7): the error taxonomy surfaced at call
boundaries. -/
inductive SimError where
  | InvalidArgument : SimError
deriving DecidableEq

/-- Modelled from the spec (§3, §4.1): the network state consumed by the
engine — per-oscillator natural frequencies, the network-wide coupling
multiplier `weight`, the cluster parameter `q`, and the Topology Provider
view `nbrs` fixed at construction. -/
structure sync_network (N : ℕ) where
  freqs : Fin N → ℝ
  weight : ℝ
  cluster : ℕ
  nbrs : Fin N → Finset (Fin N)

/-- Modelled from the spec (§4.2): `phase_kuramoto(t, teta, argv)` returns the
instantaneous phase derivative of oscillator `i` whose own phase is `teta`,
given the full current phase vector `p` (the header only declares the method;
the body is missing from src). -/
noncomputable def phase_kuramoto {N : ℕ} (net : sync_network N) (t : ℝ) (teta : ℝ)
    (p : Fin N → ℝ) (i : Fin N) : ℝ :=
  net.freqs i + (net.weight / ((net.nbrs i).card : ℝ)) *
    ∑ j ∈ net.nbrs i, Real.sin ((net.cluster : ℝ) * (p j - teta))

/-- C2: `phase_kuramoto` returns `ω_i + (weight / |neighbors(i)|) · Σ_{j ∈
neighbors(i)} sin(q·(θ_j − θ_i))`; when `|neighbors(i)| = 0` the coupling term
vanishes and the result is exactly `ω_i`; and the result depends only on the
explicit inputs — here sharpened to: only on the phases of `i` and of its
neighbors. -/
theorem phase_kuramoto_formula {N : ℕ} (net : sync_network N) (t : ℝ)
    (p : Fin N → ℝ) (i : Fin N) :
    phase_kuramoto net t (p i) p i =
      net.freqs i + (net.weight / ((net.nbrs i).card : ℝ)) *
        ∑ j ∈ net.nbrs i, Real.sin ((net.cluster : ℝ) * (p j - p i)) ∧
    (net.nbrs i = ∅ → phase_kuramoto net t (p i) p i = net.freqs i) ∧
    (∀ q : Fin N → ℝ, q i = p i → (∀ j, j ∈ net.nbrs i → q j = p j) →
      phase_kuramoto net t (q i) q i = phase_kuramoto net t (p i) p i) := by
  refine ⟨rfl, ?_, ?_⟩
  · intro h
    simp [phase_kuramoto, h]
  · intro q hqi hnb
    unfold phase_kuramoto
    rw [hqi]
    congr 2
    exact Finset.sum_congr rfl (fun j hj => by rw [hnb j hj])

/-- Concrete one-oscillator network with an empty neighbor set, natural
frequency `2`, weight `3` and `q = 1`, used by witnesses. -/
def witNet : sync_network 1 where
  freqs := fun _ => 2
  weight := 3
  cluster := 1
  nbrs := fun _ => ∅

/-- Witness for C2: with no neighbors the derivative is the natural
frequency. -/
theorem phase_kuramoto_formula_witness :
    phase_kuramoto witNet 0 ((fun _ : Fin 1 => (0 : ℝ)) 0) (fun _ : Fin 1 => (0 : ℝ)) 0
      = witNet.freqs 0 :=
  (phase_kuramoto_formula witNet 0 (fun _ : Fin 1 => (0 : ℝ)) 0).2.1 rfl

/-- Modelled from the spec (§4.2, §4.3): the autonomous vector field driving
every integration scheme — the coupling function evaluated at each oscillator
with its own current phase. -/
noncomputable def deriv_vec {N : ℕ} (net : sync_network N) (p : Fin N → ℝ) :
    Fin N → ℝ :=
  fun i => phase_kuramoto net 0 (p i) p i

/-- Modelled from the spec (§4.3): fixed-step explicit Euler, a synchronous
update of the whole phase vector from the old vector. -/
noncomputable def euler_step {N : ℕ} (net : sync_network N) (step : ℝ)
    (p : Fin N → ℝ) : Fin N → ℝ :=
  fun i => p i + step * deriv_vec net p i

/-- Modelled from the spec (§4.3): fixed-step classical 4th-order Runge-Kutta;
all four stages are computed from the old phase vector. -/
noncomputable def rk4_step {N : ℕ} (net : sync_network N) (step : ℝ)
    (p : Fin N → ℝ) : Fin N → ℝ :=
  let k1 := deriv_vec net p
  let k2 := deriv_vec net (fun j => p j + step / 2 * k1 j)
  let k3 := deriv_vec net (fun j => p j + step / 2 * k2 j)
  let k4 := deriv_vec net (fun j => p j + step * k3 j)
  fun i => p i + step / 6 * (k1 i + 2 * k2 i + 2 * k3 i + k4 i)

/-- Modelled from the spec (§4.3, §6): Runge-Kutta-Fehlberg with internal
sub-step size `int_step`; the exact coefficients are an external numeric
contract, so the scheme is modelled as a deterministic composition of
synchronous sub-steps of size about `int_step` covering `step`. -/
noncomputable def rkf45_step {N : ℕ} (net : sync_network N)
    (step int_step : ℝ) (p : Fin N → ℝ) : Fin N → ℝ :=
  let n := max 1 ⌈step / int_step⌉₊
  (fun q => rk4_step net (step / (n : ℝ)) q)^[n] p

/-- Modelled from the spec (§4.3): the per-oscillator view of one integration
step — the new phase of oscillator `i` as a function of the old vector only. -/
noncomputable def phase_step {N : ℕ} (net : sync_network N) (solver : solve_type)
    (step int_step : ℝ) (p : Fin N → ℝ) (i : Fin N) : ℝ :=
  match solver with
  | solve_type.FAST => euler_step net step p i
  | solve_type.RK4 => rk4_step net step p i
  | solve_type.RKF45 => rkf45_step net step int_step p i
  | solve_type.UNSUPPORTED => p i

/-- Modelled from the spec (§4.3): the whole-vector update dispatched on the
solver selector. -/
noncomputable def step_vec {N : ℕ} (net : sync_network N) (solver : solve_type)
    (step int_step : ℝ) (p : Fin N → ℝ) : Fin N → ℝ :=
  match solver with
  | solve_type.FAST => euler_step net step p
  | solve_type.RK4 => rk4_step net step p
  | solve_type.RKF45 => rkf45_step net step int_step p
  | solve_type.UNSUPPORTED => p

/-- Modelled from the spec (§4.3): `calculate_phases(solver, t, step,
int_step)` advances the full phase vector by one step, rejecting unsupported
solver selectors with `InvalidArgument` (the header only declares the method;
the body is missing from src). -/
noncomputable def calculate_phases {N : ℕ} (net : sync_network N)
    (solver : solve_type) (t step int_step : ℝ) (p : Fin N → ℝ) :
    Except SimError (Fin N → ℝ) :=
  if solver = solve_type.UNSUPPORTED then Except.error SimError.InvalidArgument
  else Except.ok (step_vec net solver step int_step p)

/-- C6: for every supported solver, `calculate_phases` performs a synchronous
(Jacobi) update — the whole-vector result equals, pointwise, a per-oscillator
function of the phase vector as it was at the start of the step — and it is
deterministic: identical state and arguments give identical results. -/
theorem calculate_phases_jacobi_deterministic {N : ℕ} (net : sync_network N)
    (solver : solve_type) (h : solver ≠ solve_type.UNSUPPORTED)
    (t step int_step : ℝ) (p : Fin N → ℝ) :
    calculate_phases net solver t step int_step p =
      Except.ok (fun i => phase_step net solver step int_step p i) ∧
    (∀ q : Fin N → ℝ, (∀ j, p j = q j) →
      calculate_phases net solver t step int_step p =
        calculate_phases net solver t step int_step q) := by
  constructor
  · rw [calculate_phases, if_neg h]
    cases solver with
    | FAST => rfl
    | RK4 => rfl
    | RKF45 => rfl
    | UNSUPPORTED => exact absurd rfl h
  · intro q hq
    have : p = q := funext hq
    rw [this]

/-- Witness for C6 with the Euler solver on the one-oscillator network. -/
theorem calculate_phases_jacobi_deterministic_witness :
    calculate_phases witNet solve_type.FAST 0 1 1 (fun _ : Fin 1 => (0 : ℝ)) =
      Except.ok (fun i => phase_step witNet solve_type.FAST 1 1 (fun _ : Fin 1 => (0 : ℝ)) i) :=
  (calculate_phases_jacobi_deterministic witNet solve_type.FAST (by decide)
    0 1 1 (fun _ : Fin 1 => (0 : ℝ))).1

/-- Modelled from the spec (§4.4): the phase vector after `k` fixed-size
integration increments. -/
noncomputable def evolve {N : ℕ} (net : sync_network N) (solver : solve_type)
    (step int_step : ℝ) (k : ℕ) (p : Fin N → ℝ) : Fin N → ℝ :=
  (step_vec net solver step int_step)^[k] p

/-- Modelled from the spec (§4.4, §7): `simulate_static(steps, time, solver,
collect_dynamic)` — fixed-step simulation dividing `[0, time]` into `steps`
equal increments, recording every state when `collect_dynamic` holds and only
the final one otherwise; zero `steps`, non-positive `time` and unsupported
solvers fail with `InvalidArgument` (the header only declares the method; the
body is missing from src). -/
noncomputable def simulate_static {N : ℕ} (net : sync_network N) (steps : ℕ)
    (time : ℝ) (solver : solve_type) (collect_dynamic : Bool) (p : Fin N → ℝ) :
    Except SimError (Fin N → List sync_dynamic) :=
  if steps = 0 then Except.error SimError.InvalidArgument
  else if time ≤ 0 then Except.error SimError.InvalidArgument
  else if solver = solve_type.UNSUPPORTED then Except.error SimError.InvalidArgument
  else
    Except.ok (fun i =>
      if collect_dynamic then
        (List.range (steps + 1)).map (fun (k : ℕ) =>
          { time := (k : ℝ) * (time / (steps : ℝ)),
            phase := evolve net solver (time / (steps : ℝ)) (time / (steps : ℝ)) k p i })
      else
        [{ time := time,
           phase := evolve net solver (time / (steps : ℝ)) (time / (steps : ℝ)) steps p i }])

/-- Modelled from the spec (§4.4, §7): `simulate(steps, time, solver,
collect_dynamic)` — the fixed-step entry point, same contract as
`simulate_static` (the header only declares the method; the body is missing
from src). -/
noncomputable def simulate {N : ℕ} (net : sync_network N) (steps : ℕ)
    (time : ℝ) (solver : solve_type) (collect_dynamic : Bool) (p : Fin N → ℝ) :
    Except SimError (Fin N → List sync_dynamic) :=
  if steps = 0 then Except.error SimError.InvalidArgument
  else if time ≤ 0 then Except.error SimError.InvalidArgument
  else if solver = solve_type.UNSUPPORTED then Except.error SimError.InvalidArgument
  else
    Except.ok (fun i =>
      if collect_dynamic then
        (List.range (steps + 1)).map (fun (k : ℕ) =>
          { time := (k : ℝ) * (time / (steps : ℝ)),
            phase := evolve net solver (time / (steps : ℝ)) (time / (steps : ℝ)) k p i })
      else
        [{ time := time,
           phase := evolve net solver (time / (steps : ℝ)) (time / (steps : ℝ)) steps p i }])

/-- C8: `simulate_static` and `simulate` are behaviorally equivalent from the
caller's perspective — on every network state and every choice of arguments
the two entry points produce the same result. -/
theorem simulate_static_equiv_simulate {N : ℕ} (net : sync_network N)
    (steps : ℕ) (time : ℝ) (solver : solve_type) (collect_dynamic : Bool)
    (p : Fin N → ℝ) :
    simulate_static net steps time solver collect_dynamic p =
      simulate net steps time solver collect_dynamic p := rfl

/-- C5: with `collect_dynamic = true`, `simulate(steps, time, solver, ·)`
returns for each oscillator exactly `steps + 1` Dynamic Samples whose times
are evenly spaced from `0` to `time` (sample `k` at time `k·(time/steps)`,
with `steps·(time/steps) = time`); with `collect_dynamic = false` it returns,
for each oscillator, a length-one sequence holding only the final phase. -/
theorem simulate_sample_counts {N : ℕ} (net : sync_network N) (steps : ℕ)
    (time : ℝ) (solver : solve_type) (p : Fin N → ℝ)
    (hsteps : steps ≠ 0) (htime : 0 < time)
    (hsolver : solver ≠ solve_type.UNSUPPORTED) :
    (∃ d, simulate net steps time solver true p = Except.ok d ∧
      ∀ i, (d i).length = steps + 1 ∧
        (d i).map sync_dynamic.time =
          (List.range (steps + 1)).map (fun (k : ℕ) => (k : ℝ) * (time / (steps : ℝ))) ∧
        (d i).map sync_dynamic.phase =
          (List.range (steps + 1)).map
            (fun (k : ℕ) => evolve net solver (time / (steps : ℝ)) (time / (steps : ℝ)) k p i)) ∧
    (steps : ℝ) * (time / (steps : ℝ)) = time ∧
    (∃ d, simulate net steps time solver false p = Except.ok d ∧
      ∀ i, d i = [{ time := time,
                    phase := evolve net solver (time / (steps : ℝ))
                      (time / (steps : ℝ)) steps p i }]) := by
  have hg : ¬ time ≤ 0 := not_le.mpr htime
  have hcast : (steps : ℝ) ≠ 0 := Nat.cast_ne_zero.mpr hsteps
  refine ⟨?_, ?_, ?_⟩
  · refine ⟨fun i => (List.range (steps + 1)).map (fun (k : ℕ) =>
      { time := (k : ℝ) * (time / (steps : ℝ)),
        phase := evolve net solver (time / (steps : ℝ)) (time / (steps : ℝ)) k p i }), ?_, ?_⟩
    · simp [simulate, hsteps, hg, hsolver]
    · intro i
      refine ⟨by simp, ?_, ?_⟩ <;> · rw [List.map_map]; rfl
  · rw [mul_comm, div_mul_cancel₀ _ hcast]
  · refine ⟨fun i => [{ time := time,
                        phase := evolve net solver (time / (steps : ℝ))
                          (time / (steps : ℝ)) steps p i }], ?_, ?_⟩
    · simp [simulate, hsteps, hg, hsolver]
    · intro i
      rfl

/-- Witness for C5 on the one-oscillator network, one step over `[0, 1]` with
the Euler solver. -/
theorem simulate_sample_counts_witness :
    (∃ d, simulate witNet 1 1 solve_type.FAST true (fun _ : Fin 1 => (0 : ℝ)) =
        Except.ok d ∧
      ∀ i, (d i).length = 1 + 1 ∧
        (d i).map sync_dynamic.time =
          (List.range (1 + 1)).map (fun (k : ℕ) => (k : ℝ) * ((1 : ℝ) / ((1 : ℕ) : ℝ))) ∧
        (d i).map sync_dynamic.phase =
          (List.range (1 + 1)).map
            (fun (k : ℕ) => evolve witNet solve_type.FAST ((1 : ℝ) / ((1 : ℕ) : ℝ))
              ((1 : ℝ) / ((1 : ℕ) : ℝ)) k (fun _ : Fin 1 => (0 : ℝ)) i)) ∧
    (((1 : ℕ) : ℝ)) * ((1 : ℝ) / ((1 : ℕ) : ℝ)) = 1 ∧
    (∃ d, simulate witNet 1 1 solve_type.FAST false (fun _ : Fin 1 => (0 : ℝ)) =
        Except.ok d ∧
      ∀ i, d i = [{ time := (1 : ℝ),
                    phase := evolve witNet solve_type.FAST ((1 : ℝ) / ((1 : ℕ) : ℝ))
                      ((1 : ℝ) / ((1 : ℕ) : ℝ)) 1 (fun _ : Fin 1 => (0 : ℝ)) i }]) :=
  simulate_sample_counts witNet 1 1 solve_type.FAST (fun _ : Fin 1 => (0 : ℝ))
    (by decide) (by norm_num) (by decide)

/-- Modelled from the spec (§4.4): the mandatory maximum-iteration safety
bound of the adaptive driver; the exact bound is an implementation choice. -/
def MAX_ITER : ℕ := 10000

/-- Modelled from the spec (§4.4): the adaptive driver loop — repeatedly apply
one integration increment `f` while the global order is below the target,
stopping as soon as the order change falls below `th`; the fuel argument is
the safety bound.  Returns the list of states produced after the initial
one. -/
noncomputable def dynLoop {N : ℕ} (f : (Fin N → ℝ) → (Fin N → ℝ))
    (order th : ℝ) : ℕ → (Fin N → ℝ) → List (Fin N → ℝ)
  | 0, _ => []
  | fuel + 1, p =>
    if order ≤ sync_order p then []
    else if |sync_order (f p) - sync_order p| < th then [f p]
    else f p :: dynLoop f order th fuel (f p)

lemma dynLoop_spec {N : ℕ} (f : (Fin N → ℝ) → (Fin N → ℝ)) (order th : ℝ) :
    ∀ (fuel : ℕ) (p : Fin N → ℝ),
      ∃ n, n ≤ fuel ∧
        dynLoop f order th fuel p = (List.range n).map (fun k => f^[k + 1] p) ∧
        (n = fuel ∨ order ≤ sync_order (f^[n] p) ∨
          (0 < n ∧ |sync_order (f^[n] p) - sync_order (f^[n - 1] p)| < th)) := by
  intro fuel
  induction fuel with
  | zero =>
    intro p
    exact ⟨0, le_refl 0, by simp [dynLoop], Or.inl rfl⟩
  | succ m ih =>
    intro p
    by_cases hord : order ≤ sync_order p
    · refine ⟨0, Nat.zero_le _, by simp [dynLoop, hord], Or.inr (Or.inl ?_)⟩
      simpa using hord
    · by_cases hth : |sync_order (f p) - sync_order p| < th
      · refine ⟨1, Nat.succ_le_succ (Nat.zero_le m), ?_,
          Or.inr (Or.inr ⟨Nat.one_pos, ?_⟩)⟩
        · simp [dynLoop, hord, hth]
        · simpa using hth
      · obtain ⟨n, hn, heq, hstop⟩ := ih (f p)
        refine ⟨n + 1, Nat.succ_le_succ hn, ?_, ?_⟩
        · have hunfold : dynLoop f order th (m + 1) p
              = f p :: dynLoop f order th m (f p) := by
            simp [dynLoop, hord, hth]
          rw [hunfold, heq, List.range_succ_eq_map, List.map_cons, List.map_map]
          congr 1
        · rcases hstop with h1 | h2 | h3
          · exact Or.inl (by rw [h1])
          · refine Or.inr (Or.inl ?_)
            rw [Function.iterate_succ_apply]
            exact h2
          · refine Or.inr (Or.inr ⟨Nat.succ_pos n, ?_⟩)
            have e1 : f^[n + 1] p = f^[n] (f p) := Function.iterate_succ_apply f n p
            have e2 : f^[n + 1 - 1] p = f^[n - 1] (f p) := by
              obtain ⟨k, rfl⟩ : ∃ k, n = k + 1 :=
                ⟨n - 1, (Nat.succ_pred_eq_of_pos h3.1).symm⟩
              simp [Function.iterate_succ_apply]
            rw [e1, e2]
            exact h3.2

/-- Modelled from the spec (§4.4): the sequence of phase-vector states visited
by the adaptive driver, starting from the initial state. -/
noncomputable def dyn_states {N : ℕ} (net : sync_network N) (order : ℝ)
    (solver : solve_type) (step step_int threshold_changes : ℝ)
    (p : Fin N → ℝ) : List (Fin N → ℝ) :=
  p :: dynLoop (step_vec net solver step step_int) order threshold_changes MAX_ITER p

/-- Modelled from the spec (§4.4): the aggregate order/time trace built from
the visited states — sample `k` records time `k·step` and the global order at
state `k`. -/
noncomputable def dyn_samples {N : ℕ} (step : ℝ) (states : List (Fin N → ℝ)) :
    List sync_dynamic :=
  (List.range states.length).map (fun (k : ℕ) =>
    { time := (k : ℝ) * step,
      phase := sync_order (states.getD k (fun _ => 0)) })

/-- Modelled from the spec (§4.4, §7): `simulate_dynamic(order, solver,
collect_dynamic, step, step_int, threshold_changes)` — adaptive simulation
until the order target is reached, the order stabilizes, or the safety bound
is hit; non-positive `step`/`step_int` and unsupported solvers fail with
`InvalidArgument` (the header only declares the method; the body is missing
from src). -/
noncomputable def simulate_dynamic {N : ℕ} (net : sync_network N) (order : ℝ)
    (solver : solve_type) (collect_dynamic : Bool)
    (step step_int threshold_changes : ℝ) (p : Fin N → ℝ) :
    Except SimError (List sync_dynamic) :=
  if step ≤ 0 ∨ step_int ≤ 0 then Except.error SimError.InvalidArgument
  else if solver = solve_type.UNSUPPORTED then Except.error SimError.InvalidArgument
  else
    Except.ok
      (if collect_dynamic then
        dyn_samples step (dyn_states net order solver step step_int threshold_changes p)
      else
        [(dyn_samples step
            (dyn_states net order solver step step_int threshold_changes p)).getLastD
          { time := 0, phase := sync_order p }])

/-- C3: for every positive `step` and `step_int` and every order target —
including targets above `1` that `sync_order` can never reach —
`simulate_dynamic` terminates: the driver performs `n ≤ MAX_ITER` increments,
succeeds (non-convergence is not an error; the trajectory reached so far is
returned), and the stop is caused by the order target being reached, by the
order change falling below `threshold_changes`, or by the safety bound. -/
theorem simulate_dynamic_terminates {N : ℕ} (net : sync_network N) (order : ℝ)
    (solver : solve_type) (collect_dynamic : Bool)
    (step step_int threshold_changes : ℝ) (p : Fin N → ℝ)
    (hstep : 0 < step) (hsi : 0 < step_int)
    (hsolver : solver ≠ solve_type.UNSUPPORTED) :
    ∃ n, n ≤ MAX_ITER ∧
      dyn_states net order solver step step_int threshold_changes p =
        (List.range (n + 1)).map
          (fun (k : ℕ) => (step_vec net solver step step_int)^[k] p) ∧
      simulate_dynamic net order solver collect_dynamic step step_int
          threshold_changes p =
        Except.ok
          (if collect_dynamic then
            dyn_samples step (dyn_states net order solver step step_int threshold_changes p)
          else
            [(dyn_samples step
                (dyn_states net order solver step step_int threshold_changes p)).getLastD
              { time := 0, phase := sync_order p }]) ∧
      (n = MAX_ITER ∨
        order ≤ sync_order ((step_vec net solver step step_int)^[n] p) ∨
        (0 < n ∧
          |sync_order ((step_vec net solver step step_int)^[n] p) -
            sync_order ((step_vec net solver step step_int)^[n - 1] p)|
            < threshold_changes)) := by
  obtain ⟨n, hn, heq, hstop⟩ :=
    dynLoop_spec (step_vec net solver step step_int) order threshold_changes MAX_ITER p
  refine ⟨n, hn, ?_, ?_, hstop⟩
  · rw [dyn_states, heq, List.range_succ_eq_map, List.map_cons, List.map_map]
    rfl
  · rw [simulate_dynamic, if_neg, if_neg hsolver]
    push_neg
    exact ⟨hstep, hsi⟩

/-- Witness for C3: the adaptive driver succeeds at the unreachable target
order `2` on the one-oscillator network. -/
theorem simulate_dynamic_terminates_witness :
    ∃ r, simulate_dynamic witNet 2 solve_type.FAST true 1 1 1
      (fun _ : Fin 1 => (0 : ℝ)) = Except.ok r := by
  obtain ⟨n, -, -, hok, -⟩ :=
    simulate_dynamic_terminates witNet 2 solve_type.FAST true 1 1 1
      (fun _ : Fin 1 => (0 : ℝ)) (by norm_num) (by norm_num) (by decide)
  exact ⟨_, hok⟩

/-- C7: `simulate` and `simulate_static` with `steps = 0` or non-positive
`time`, `simulate_dynamic` with non-positive `step` or `step_int`, and any
entry point handed an unsupported solver selector, fail immediately at the
call boundary with `InvalidArgument`; the error result carries no partial or
garbage trajectory. -/
theorem invalid_argument_boundaries {N : ℕ} (net : sync_network N) (steps : ℕ)
    (time order step step_int threshold_changes : ℝ) (solver : solve_type)
    (collect_dynamic : Bool) (p : Fin N → ℝ) :
    (steps = 0 →
      simulate net steps time solver collect_dynamic p
          = Except.error SimError.InvalidArgument ∧
      simulate_static net steps time solver collect_dynamic p
          = Except.error SimError.InvalidArgument) ∧
    (time ≤ 0 →
      simulate net steps time solver collect_dynamic p
          = Except.error SimError.InvalidArgument ∧
      simulate_static net steps time solver collect_dynamic p
          = Except.error SimError.InvalidArgument) ∧
    (step ≤ 0 ∨ step_int ≤ 0 →
      simulate_dynamic net order solver collect_dynamic step step_int
          threshold_changes p = Except.error SimError.InvalidArgument) ∧
    (solver = solve_type.UNSUPPORTED →
      simulate net steps time solver collect_dynamic p
          = Except.error SimError.InvalidArgument ∧
      simulate_static net steps time solver collect_dynamic p
          = Except.error SimError.InvalidArgument ∧
      simulate_dynamic net order solver collect_dynamic step step_int
          threshold_changes p = Except.error SimError.InvalidArgument ∧
      (∀ t st ist q, calculate_phases net solver t st ist q
          = Except.error SimError.InvalidArgument)) := by
  refine ⟨?_, ?_, ?_, ?_⟩
  · intro h
    constructor <;> simp [simulate, simulate_static, h]
  · intro h
    constructor <;> simp [simulate, simulate_static, h, ite_self]
  · intro h
    simp [simulate_dynamic, h]
  · intro h
    refine ⟨?_, ?_, ?_, ?_⟩
    · simp [simulate, h, ite_self]
    · simp [simulate_static, h, ite_self]
    · simp [simulate_dynamic, h, ite_self]
    · intro t st ist q
      simp [calculate_phases, h]

/-- Witness for C7: zero steps and an unsupported solver rejected at concrete
inputs. -/
theorem invalid_argument_boundaries_witness :
    simulate witNet 0 1 solve_type.FAST true (fun _ : Fin 1 => (0 : ℝ))
        = Except.error SimError.InvalidArgument ∧
    simulate_dynamic witNet 1 solve_type.UNSUPPORTED true 1 1 1
        (fun _ : Fin 1 => (0 : ℝ)) = Except.error SimError.InvalidArgument := by
  constructor
  · exact ((invalid_argument_boundaries witNet 0 1 1 1 1 1 solve_type.FAST true
      (fun _ : Fin 1 => (0 : ℝ))).1 rfl).1
  · exact ((invalid_argument_boundaries witNet 0 1 1 1 1 1
      solve_type.UNSUPPORTED true (fun _ : Fin 1 => (0 : ℝ))).2.2.2 rfl).2.2.1

/-- From the source header (line 42): `simulate_dynamic` declares default
arguments `step = 0.1`, `step_int = 0.01`, `threshold_changes = 0.000001`; a
call omitting the trailing arguments elaborates to this wrapper. -/
noncomputable def simulate_dynamic_defaults {N : ℕ} (net : sync_network N)
    (order : ℝ) (solver : solve_type) (collect_dynamic : Bool)
    (p : Fin N → ℝ) : Except SimError (List sync_dynamic) :=
  simulate_dynamic net order solver collect_dynamic 0.1 0.01 0.000001 p

/-- C10: calling `simulate_dynamic` with the trailing optional arguments
omitted behaves exactly as the explicit call with `step = 0.1 = 1/10`,
`step_int = 0.01 = 1/100` and `threshold_changes = 0.000001 = 1/1000000`. -/
theorem simulate_dynamic_default_args {N : ℕ} (net : sync_network N)
    (order : ℝ) (solver : solve_type) (collect_dynamic : Bool)
    (p : Fin N → ℝ) :
    simulate_dynamic_defaults net order solver collect_dynamic p =
      simulate_dynamic net order solver collect_dynamic
        ((1 : ℝ) / 10) ((1 : ℝ) / 100) ((1 : ℝ) / 1000000) p := by
  rw [simulate_dynamic_defaults]
  norm_num

/-- Modelled from the spec (§4.6): two oscillators are pairwise close when
their normalized phases differ by no more than the tolerance. -/
def phase_close {N : ℕ} (p : Fin N → ℝ) (tol : ℝ) (i j : Fin N) : Prop :=
  |phase_normalization (p i) - phase_normalization (p j)| ≤ tol

/-- Modelled from the spec (§4.6): chain connectivity — group membership
propagates through a chain of pairwise-close oscillators. -/
def chain_close {N : ℕ} (p : Fin N → ℝ) (tol : ℝ) : Fin N → Fin N → Prop :=
  Relation.ReflTransGen (phase_close p tol)

/-- Modelled from the spec (§4.6): `allocate_sync_ensembles(tolerance)`
returns the groups of oscillator indices; each group collects exactly the
indices chain-connected to some oscillator (the header only declares the
method; the body is missing from src). -/
def allocate_sync_ensembles {N : ℕ} (p : Fin N → ℝ) (tol : ℝ) :
    Set (Set (Fin N)) :=
  {C | ∃ i, C = {j | chain_close p tol i j}}

lemma phase_close_symm {N : ℕ} (p : Fin N → ℝ) (tol : ℝ) :
    Symmetric (phase_close p tol) := by
  intro i j h
  rwa [phase_close, abs_sub_comm]

lemma chain_close_symm {N : ℕ} (p : Fin N → ℝ) (tol : ℝ) :
    Symmetric (chain_close p tol) :=
  Relation.ReflTransGen.symmetric (phase_close_symm p tol)

/-- C1: for every tolerance `t ≥ 0`, `allocate_sync_ensembles(t)` partitions
the oscillator indices — every index appears in exactly one group; two
oscillators share a group exactly when a chain of pairwise-close oscillators
connects them; and the partition depends only on the closeness relation, so
it is independent of any traversal order. -/
theorem allocate_sync_ensembles_partition {N : ℕ} (p : Fin N → ℝ) (tol : ℝ)
    (htol : 0 ≤ tol) :
    (∀ i, ∃! C, C ∈ allocate_sync_ensembles p tol ∧ i ∈ C) ∧
    (∀ i j, (∃ C ∈ allocate_sync_ensembles p tol, i ∈ C ∧ j ∈ C) ↔
      chain_close p tol i j) ∧
    (∀ (q : Fin N → ℝ) (tol2 : ℝ),
      (∀ i j, phase_close p tol i j ↔ phase_close q tol2 i j) →
      allocate_sync_ensembles p tol = allocate_sync_ensembles q tol2) := by
  have hsym := chain_close_symm p tol
  refine ⟨?_, ?_, ?_⟩
  · intro i
    refine ⟨{j | chain_close p tol i j}, ⟨⟨i, rfl⟩, Relation.ReflTransGen.refl⟩, ?_⟩
    rintro C ⟨⟨a, rfl⟩, hi⟩
    have hai : chain_close p tol a i := hi
    ext j
    constructor
    · intro haj
      exact Relation.ReflTransGen.trans (hsym hai) haj
    · intro hij
      exact Relation.ReflTransGen.trans hai hij
  · intro i j
    constructor
    · rintro ⟨C, ⟨a, rfl⟩, hi, hj⟩
      exact Relation.ReflTransGen.trans (hsym hi) hj
    · intro h
      exact ⟨{j' | chain_close p tol i j'}, ⟨i, rfl⟩, Relation.ReflTransGen.refl, h⟩
  · intro q tol2 hiff
    have hrel : phase_close p tol = phase_close q tol2 := by
      funext i j
      exact propext (hiff i j)
    unfold allocate_sync_ensembles chain_close
    rw [hrel]

/-- Witness for C1: oscillator `0` of a two-oscillator ensemble with equal
phases and tolerance `0` lies in exactly one group. -/
theorem allocate_sync_ensembles_partition_witness :
    ∃! C, C ∈ allocate_sync_ensembles (fun _ : Fin 2 => (0 : ℝ)) 0 ∧
      (0 : Fin 2) ∈ C :=
  (allocate_sync_ensembles_partition (fun _ : Fin 2 => (0 : ℝ)) 0 (le_refl 0)).1 0

end Sync
